import Mathlib

/-!
# Verification of the specgen specification against its source

This development shallowly embeds the core of the specgen repository
(`src/lib/llm.ts`, `src/lib/projectContext.ts`, `src/lib/database.ts`,
`src/lib/llm/config.ts`, `src/lib/llm/templates/engine.ts`) and settles the
spec claims about it.  JavaScript strings are modelled as `List Char`,
JavaScript numbers used by the ambiguity scorer as `ℚ`, JSON values by the
`Json` inductive below, and the IndexedDB-backed stores as explicit pure
state.
-/

namespace SpecGen

/-- Left brace character, written via its code point so that brace characters
never appear literally in the file. -/
def lb : Char := Char.ofNat 123

/-- Right brace character. -/
def rb : Char := Char.ofNat 125

/-- Model of a JavaScript JSON value (the result of `JSON.parse`, the payload
of `overrides`, template contexts, ...).  Numbers are modelled as rationals.
Object fields are an association list in insertion order, mirroring the
observable key order of JavaScript objects. -/
inductive Json where
  | null : Json
  | bool (b : Bool) : Json
  | num (q : ℚ) : Json
  | str (s : String) : Json
  | arr (elems : List Json) : Json
  | obj (fields : List (String × Json)) : Json
deriving Repr

/-- Object fields of a `Json` value. -/
abbrev JObj := List (String × Json)

mutual
/-- Boolean equality on `Json`, used to derive decidable equality. -/
def Json.beq : Json → Json → Bool
  | .null, .null => true
  | .bool a, .bool b => a == b
  | .num a, .num b => a == b
  | .str a, .str b => a == b
  | .arr a, .arr b => Json.beqList a b
  | .obj a, .obj b => Json.beqObj a b
  | _, _ => false

def Json.beqList : List Json → List Json → Bool
  | [], [] => true
  | a :: as, b :: bs => Json.beq a b && Json.beqList as bs
  | _, _ => false

def Json.beqObj : JObj → JObj → Bool
  | [], [] => true
  | (k, v) :: as, (k', v') :: bs => k == k' && Json.beq v v' && Json.beqObj as bs
  | _, _ => false
end

mutual
theorem Json.beq_eq : ∀ a b : Json, Json.beq a b = true → a = b
  | .null, .null, _ => rfl
  | .bool _, .bool _, h => by
      simp only [Json.beq, beq_iff_eq] at h; rw [h]
  | .num _, .num _, h => by
      simp only [Json.beq, beq_iff_eq] at h; rw [h]
  | .str _, .str _, h => by
      simp only [Json.beq, beq_iff_eq] at h; rw [h]
  | .arr a, .arr b, h => by
      simp only [Json.beq] at h
      rw [Json.beqList_eq a b h]
  | .obj a, .obj b, h => by
      simp only [Json.beq] at h
      rw [Json.beqObj_eq a b h]

theorem Json.beqList_eq : ∀ a b : List Json, Json.beqList a b = true → a = b
  | [], [], _ => rfl
  | a :: as, b :: bs, h => by
      simp only [Json.beqList, Bool.and_eq_true] at h
      rw [Json.beq_eq a b h.1, Json.beqList_eq as bs h.2]

theorem Json.beqObj_eq : ∀ a b : JObj, Json.beqObj a b = true → a = b
  | [], [], _ => rfl
  | (k, v) :: as, (k', v') :: bs, h => by
      simp only [Json.beqObj, Bool.and_eq_true, beq_iff_eq] at h
      rw [h.1.1, Json.beq_eq v v' h.1.2, Json.beqObj_eq as bs h.2]
end

mutual
theorem Json.beq_refl : ∀ a : Json, Json.beq a a = true
  | .null => rfl
  | .bool _ => by simp [Json.beq]
  | .num _ => by simp [Json.beq]
  | .str _ => by simp [Json.beq]
  | .arr a => by simp only [Json.beq]; exact Json.beqList_refl a
  | .obj a => by simp only [Json.beq]; exact Json.beqObj_refl a

theorem Json.beqList_refl : ∀ a : List Json, Json.beqList a a = true
  | [] => rfl
  | a :: as => by
      simp only [Json.beqList, Bool.and_eq_true]
      exact ⟨Json.beq_refl a, Json.beqList_refl as⟩

theorem Json.beqObj_refl : ∀ a : JObj, Json.beqObj a a = true
  | [] => rfl
  | (k, v) :: as => by
      simp only [Json.beqObj, Bool.and_eq_true, beq_self_eq_true, true_and]
      exact ⟨Json.beq_refl v, Json.beqObj_refl as⟩
end

instance : DecidableEq Json := fun a b =>
  if h : Json.beq a b = true then
    .isTrue (Json.beq_eq a b h)
  else
    .isFalse (fun he => h (he ▸ Json.beq_refl a))

/-! ## Ambiguity scorer (`LLMService.calculateAmbiguityScore`, src/lib/llm.ts)

JavaScript strings are `List Char`; the score is computed in `ℚ` (the
source's floating point additions of 0.3/0.2/0.1/0.05 are modelled
exactly). -/

/-- ASCII lowering, the relevant fragment of JavaScript `toLowerCase()`. -/
def charLower (c : Char) : Char :=
  if 'A' ≤ c ∧ c ≤ 'Z' then Char.ofNat (c.toNat + 32) else c

/-- Model of `string.toLowerCase()`. -/
def lowerStr (s : List Char) : List Char := s.map charLower

/-- Model of the regex test `/\d/.test(s)`. -/
def hasDigit (s : List Char) : Bool := s.any fun c => '0' ≤ c ∧ c ≤ '9'

/-- Model of JavaScript `s.includes(w)`: `w` occurs as a contiguous
substring of `s`. -/
def containsSub (w : List Char) : List Char → Bool
  | [] => w.isEmpty
  | s@(_ :: rest) => w.isPrefixOf s || containsSub w rest

/-- `Math.min(a, b)` on exact rationals. -/
def ratMin (a b : ℚ) : ℚ := if a ≤ b then a else b

/-- Model of JavaScript `s.split(' ')`: split on the single space character,
keeping empty fragments. -/
def splitSpace : List Char → List (List Char)
  | [] => [[]]
  | c :: rest =>
    if c = ' ' then [] :: splitSpace rest
    else
      match splitSpace rest with
      | [] => [[c]]
      | t :: ts => (c :: t) :: ts

/-- Splitting on every whitespace character, the reading of
"split on whitespace" used by the spec's pronoun rule. -/
def splitWs : List Char → List (List Char)
  | [] => [[]]
  | c :: rest =>
    if c.isWhitespace then [] :: splitWs rest
    else
      match splitWs rest with
      | [] => [[c]]
      | t :: ts => (c :: t) :: ts

/-- The fixed vague-word list of `calculateAmbiguityScore`. -/
def vagueWords : List (List Char) :=
  ["some", "maybe", "possibly", "could", "might", "perhaps", "probably"].map
    String.toList

/-- The fixed pronoun list of `calculateAmbiguityScore`. -/
def pronounWords : List (List Char) :=
  ["it", "this", "that", "they", "them"].map String.toList

/-- The `context` field of a `SpecInput` (src/types/schemas.ts,
`InputContextSchema`).  The code only distinguishes empty/missing lists from
non-empty ones, so a missing list is modelled as `[]`.  `overrides` is the
free-form record applied by `resolveContext`; `none` models an absent
(`undefined`) record. -/
structure InputContext where
  stakeholders : List String
  constraints : List String
  non_functional : List String
  links : List String
  inherit_from_project : Bool
  overrides : Option JObj
deriving DecidableEq, Repr

/-- A feature input (src/types/schemas.ts, `SpecInputSchema`); the
description is the character list the scorer works on. -/
structure SpecInput where
  project_id : String
  title : String
  description : List Char
  context : InputContext
deriving DecidableEq, Repr

/-- Length contribution: `<100 → +0.3`, else `<200 → +0.1`. -/
def lengthScore (d : List Char) : ℚ :=
  if d.length < 100 then 3/10 else if d.length < 200 then 1/10 else 0

/-- Digit contribution: `+0.2` when the description has no digit. -/
def digitScore (d : List Char) : ℚ :=
  if hasDigit d then 0 else 2/10

/-- Distinct vague words found as substrings of the lowercased description
(`vagueWords.filter(word => description.toLowerCase().includes(word))`). -/
def vagueCount (d : List Char) : ℕ :=
  (vagueWords.filter fun w => containsSub w (lowerStr d)).length

/-- Distinct pronouns found as whole tokens of the lowercased description
split on the space character
(`pronouns.filter(p => description.toLowerCase().split(' ').includes(p))`). -/
def pronounCount (d : List Char) : ℕ :=
  (pronounWords.filter fun p => (splitSpace (lowerStr d)).contains p).length

/-- Distinct pronouns found as whole whitespace-delimited tokens — the
variant the spec text describes ("split on whitespace"). -/
def pronounCountWs (d : List Char) : ℕ :=
  (pronounWords.filter fun p => (splitWs (lowerStr d)).contains p).length

/-- Context contribution: `+0.1` for a missing/empty stakeholder list and
`+0.1` for a missing/empty constraints list. -/
def contextScore (ctx : InputContext) : ℚ :=
  (if ctx.stakeholders = [] then 1/10 else 0) +
    (if ctx.constraints = [] then 1/10 else 0)

/-- `LLMService.calculateAmbiguityScore` (src/lib/llm.ts lines 124–154):
the sequential accumulation of all contributions, capped at 1.0. -/
def calculateAmbiguityScore (input : SpecInput) : ℚ :=
  let d := input.description
  ratMin (lengthScore d + digitScore d + (vagueCount d : ℚ) * (1/10) +
    (pronounCount d : ℚ) * (5/100) + contextScore input.context) 1

/-- The scoring rule exactly as the claim states it, with pronouns counted
as whole *whitespace*-delimited tokens. -/
def claimAmbiguityScore (input : SpecInput) : ℚ :=
  let d := input.description
  ratMin (lengthScore d + digitScore d + (vagueCount d : ℚ) * (1/10) +
    (pronounCountWs d : ℚ) * (5/100) + contextScore input.context) 1

/-- The amended scoring rule: identical to the claim except that pronouns
are counted as whole tokens obtained by splitting on the space character
only. -/
def amendedAmbiguityScore (input : SpecInput) : ℚ :=
  let d := input.description
  ratMin (lengthScore d + digitScore d + (vagueCount d : ℚ) * (1/10) +
    (pronounCount d : ℚ) * (5/100) + contextScore input.context) 1

/-- An input context with nothing filled in. -/
def emptyInputContext : InputContext :=
  ⟨[], [], [], [], true, none⟩

/-- `ratMin` evaluation on the left. -/
theorem ratMin_eq_left {a b : ℚ} (h : a ≤ b) : ratMin a b = a := if_pos h

/-- `ratMin` agrees with the order-theoretic minimum. -/
theorem ratMin_eq_min (a b : ℚ) : ratMin a b = min a b := (min_def a b).symm

/-- Filtering with a pointwise weaker predicate yields a shorter list. -/
theorem length_filter_mono {α : Type} {p q : α → Bool} :
    ∀ l : List α, (∀ a ∈ l, p a = true → q a = true) →
      (l.filter p).length ≤ (l.filter q).length := by
  intro l h
  induction l with
  | nil => simp
  | cons a l ih =>
    have ht := fun b hb => h b (List.mem_cons_of_mem a hb)
    by_cases hp : p a = true
    · rw [List.filter_cons_of_pos hp,
        List.filter_cons_of_pos (h a (List.mem_cons_self a l) hp)]
      simpa using ih ht
    · rw [List.filter_cons_of_neg hp]
      cases hq : q a
      · rw [List.filter_cons_of_neg (by simp [hq])]
        exact ih ht
      · rw [List.filter_cons_of_pos hq]
        exact le_trans (ih ht) (by simp)

/-- `isPrefixOf` is preserved by extending the larger list on the right. -/
theorem isPrefixOf_append {w : List Char} :
    ∀ {s : List Char} (t : List Char), w.isPrefixOf s = true →
      w.isPrefixOf (s ++ t) = true := by
  induction w with
  | nil => intro s t _; simp [List.isPrefixOf]
  | cons a w ih =>
    intro s t h
    cases s with
    | nil => simp [List.isPrefixOf] at h
    | cons b s =>
      simp only [List.isPrefixOf, Bool.and_eq_true] at h ⊢
      exact ⟨h.1, ih t h.2⟩

/-- A substring occurrence survives appending on the right. -/
theorem containsSub_append {w : List Char} :
    ∀ {s : List Char} (t : List Char), containsSub w s = true →
      containsSub w (s ++ t) = true := by
  intro s
  induction s with
  | nil =>
    intro t h
    simp only [containsSub, List.isEmpty_iff] at h
    subst h
    cases t with
    | nil => rfl
    | cons c t => simp [containsSub, List.isPrefixOf]
  | cons c s ih =>
    intro t h
    simp only [containsSub, Bool.or_eq_true] at h ⊢
    rcases h with h | h
    · exact Or.inl (isPrefixOf_append t h)
    · exact Or.inr (ih t h)

/-- `splitSpace` never returns the empty list of fragments. -/
theorem splitSpace_ne_nil : ∀ s : List Char, splitSpace s ≠ [] := by
  intro s
  induction s with
  | nil => simp [splitSpace]
  | cons c rest ih =>
    by_cases hc : c = ' '
    · simp [splitSpace, hc]
    · simp only [splitSpace, if_neg hc]
      cases h : splitSpace rest with
      | nil => simp
      | cons t ts => simp

/-- Splitting on spaces distributes over an appended space. -/
theorem splitSpace_append (x y : List Char) :
    splitSpace (x ++ ' ' :: y) = splitSpace x ++ splitSpace y := by
  induction x with
  | nil => simp [splitSpace]
  | cons c rest ih =>
    by_cases hc : c = ' '
    · simp [splitSpace, hc, ih]
    · cases h : splitSpace rest with
      | nil => exact absurd h (splitSpace_ne_nil rest)
      | cons t ts =>
        simp only [List.cons_append, splitSpace, List.append_eq, if_neg hc]
        rw [ih, h]
        simp

/-- Each of the seven vague words is digit-free and lowercase. -/
theorem vagueWords_digit_free :
    ∀ w ∈ vagueWords, hasDigit (' ' :: w) = false := by decide

/-- `hasDigit` over an append. -/
theorem hasDigit_append (a b : List Char) :
    hasDigit (a ++ b) = (hasDigit a || hasDigit b) := List.any_append

/-- `lengthScore` vanishes for long descriptions. -/
theorem lengthScore_eq_zero {d : List Char} (h : 200 ≤ d.length) :
    lengthScore d = 0 := by
  unfold lengthScore
  rw [if_neg (by omega), if_neg (by omega)]

/-- Claim C2, counterexample: on the description `"x\nit"` the code scores
0.7 (the pronoun `it` is separated by a newline, and `split(' ')` does not
split there), while the claimed whitespace-token rule scores 0.75. -/
theorem C2_counterexample :
    calculateAmbiguityScore ⟨"p", "t", "x\nit".toList, emptyInputContext⟩ ≠
      claimAmbiguityScore ⟨"p", "t", "x\nit".toList, emptyInputContext⟩ := by
  have hv : vagueCount "x\nit".toList = 0 := by decide
  have hp : pronounCount "x\nit".toList = 0 := by decide
  have hw : pronounCountWs "x\nit".toList = 1 := by decide
  have hd : hasDigit "x\nit".toList = false := by decide
  have hl : ("x\nit".toList).length = 4 := by decide
  simp only [calculateAmbiguityScore, claimAmbiguityScore, lengthScore,
    digitScore, contextScore, emptyInputContext, hv, hp, hw, hd, hl]
  norm_num [ratMin_eq_left]

/-- Claim C2 (amended): `calculateAmbiguityScore` computes exactly the
weighted sum of the claim with pronouns counted as whole *space*-delimited
tokens (split on the space character, not on arbitrary whitespace), clamped
at 1.0; and every input with a long, digit-bearing, vague-word-free,
pronoun-free description and non-empty stakeholder and constraint lists
scores exactly 0. -/
theorem C2_main :
    (∀ input : SpecInput,
      calculateAmbiguityScore input = amendedAmbiguityScore input) ∧
    (∀ input : SpecInput,
      200 ≤ input.description.length →
      hasDigit input.description = true →
      vagueCount input.description = 0 →
      pronounCount input.description = 0 →
      input.context.stakeholders ≠ [] →
      input.context.constraints ≠ [] →
      calculateAmbiguityScore input = 0) := by
  constructor
  · intro _; rfl
  · intro input hlen hdig hv hp hs hc
    simp only [calculateAmbiguityScore, digitScore, contextScore, hdig, hv,
      hp, lengthScore_eq_zero hlen, if_neg hs, if_neg hc]
    norm_num [ratMin_eq_left]

set_option maxRecDepth 10000 in
/-- Claim C2, witness: a concrete 200-character digit-bearing description
with full context scores exactly 0. -/
theorem C2_witness :
    calculateAmbiguityScore
      ⟨"p", "t", '1' :: List.replicate 199 'a',
        ⟨["dev"], ["budget"], [], [], true, none⟩⟩ = 0 :=
  C2_main.2 _ (by decide) (by decide) (by decide) (by decide)
    (by decide) (by decide)

/-- Membership in a left factor gives `contains` on the appended list. -/
theorem contains_append_left {l l' : List (List Char)} {a : List Char}
    (h : l.contains a = true) : (l ++ l').contains a = true := by
  have ha : a ∈ l := by simpa using h
  simpa using List.mem_append_left l' ha

/-- `lowerStr` distributes over appending a space-led suffix. -/
theorem lowerStr_append_space (d w : List Char) :
    lowerStr (d ++ ' ' :: w) = lowerStr d ++ ' ' :: lowerStr w := by
  simp [lowerStr, charLower]

/-- `lengthScore` is nonnegative. -/
theorem lengthScore_nonneg (d : List Char) : 0 ≤ lengthScore d := by
  unfold lengthScore
  split
  · norm_num
  · split <;> norm_num

/-- `digitScore` is nonnegative. -/
theorem digitScore_nonneg (d : List Char) : 0 ≤ digitScore d := by
  unfold digitScore
  split <;> norm_num

/-- `contextScore` is nonnegative. -/
theorem contextScore_nonneg (ctx : InputContext) : 0 ≤ contextScore ctx := by
  unfold contextScore
  split <;> split <;> norm_num

set_option maxRecDepth 10000 in
/-- Claim C3, counterexample: appending the vague word `maybe` to a
95-character description already containing `maybe` pushes the length past
the `<100` threshold, dropping the score from 0.8 to 0.6 — the score is not
monotone under appending a vague word. -/
theorem C3_counterexample :
    calculateAmbiguityScore
      ⟨"p", "t", ("maybe ".toList ++ List.replicate 89 'a') ++
        "maybe".toList, emptyInputContext⟩ <
    calculateAmbiguityScore
      ⟨"p", "t", "maybe ".toList ++ List.replicate 89 'a',
        emptyInputContext⟩ := by
  have hv1 : vagueCount ("maybe ".toList ++ List.replicate 89 'a') = 1 := by
    decide
  have hv2 : vagueCount (("maybe ".toList ++ List.replicate 89 'a') ++
      "maybe".toList) = 1 := by decide
  have hp1 : pronounCount ("maybe ".toList ++ List.replicate 89 'a') = 0 := by
    decide
  have hp2 : pronounCount (("maybe ".toList ++ List.replicate 89 'a') ++
      "maybe".toList) = 0 := by decide
  have hd1 : hasDigit ("maybe ".toList ++ List.replicate 89 'a') = false := by
    decide
  have hd2 : hasDigit (("maybe ".toList ++ List.replicate 89 'a') ++
      "maybe".toList) = false := by decide
  have hl1 : ("maybe ".toList ++ List.replicate 89 'a').length = 95 := by
    decide
  have hl2 : (("maybe ".toList ++ List.replicate 89 'a') ++
      "maybe".toList).length = 100 := by decide
  simp only [calculateAmbiguityScore, lengthScore, digitScore, contextScore,
    emptyInputContext, hv1, hv2, hp1, hp2, hd1, hd2, hl1, hl2]
  norm_num [ratMin_eq_left]

/-- Claim C3 (amended): the ambiguity score always lies in `[0, 1]`; and
appending a vague word (separated by a space) never decreases the score
provided the description is already at least 200 characters long, so that the
length contribution cannot shrink.  Without that proviso monotonicity fails,
as `C3_counterexample` shows. -/
theorem C3_main :
    (∀ input : SpecInput,
      0 ≤ calculateAmbiguityScore input ∧ calculateAmbiguityScore input ≤ 1) ∧
    (∀ (input : SpecInput) (w : List Char), w ∈ vagueWords →
      200 ≤ input.description.length →
      calculateAmbiguityScore input ≤
        calculateAmbiguityScore
          ⟨input.project_id, input.title, input.description ++ ' ' :: w,
            input.context⟩) := by
  constructor
  · intro input
    unfold calculateAmbiguityScore
    rw [ratMin_eq_min]
    constructor
    · refine le_min ?_ zero_le_one
      have h1 := lengthScore_nonneg input.description
      have h2 := digitScore_nonneg input.description
      have h3 := contextScore_nonneg input.context
      have h4 : (0:ℚ) ≤ (vagueCount input.description : ℚ) * (1/10) := by
        positivity
      have h5 : (0:ℚ) ≤ (pronounCount input.description : ℚ) * (5/100) := by
        positivity
      linarith
    · exact min_le_right _ _
  · intro input w hw hlen
    set d := input.description with hd
    have hlen' : 200 ≤ (d ++ ' ' :: w).length := by
      rw [List.length_append]; omega
    have hdig : hasDigit (d ++ ' ' :: w) = hasDigit d := by
      rw [hasDigit_append, vagueWords_digit_free w hw, Bool.or_false]
    have hvague : vagueCount d ≤ vagueCount (d ++ ' ' :: w) := by
      refine length_filter_mono _ ?_
      intro u _ hu
      rw [lowerStr_append_space]
      exact containsSub_append _ hu
    have hpron : pronounCount d ≤ pronounCount (d ++ ' ' :: w) := by
      refine length_filter_mono _ ?_
      intro p _ hp
      rw [lowerStr_append_space, splitSpace_append]
      exact contains_append_left hp
    have hv' : (vagueCount d : ℚ) ≤ vagueCount (d ++ ' ' :: w) :=
      Nat.cast_le.mpr hvague
    have hp' : (pronounCount d : ℚ) ≤ pronounCount (d ++ ' ' :: w) :=
      Nat.cast_le.mpr hpron
    unfold calculateAmbiguityScore
    rw [ratMin_eq_min, ratMin_eq_min]
    refine min_le_min ?_ le_rfl
    rw [lengthScore_eq_zero hlen, lengthScore_eq_zero hlen']
    unfold digitScore
    rw [hdig]
    have hmul1 : (vagueCount d : ℚ) * (1/10) ≤
        (vagueCount (d ++ ' ' :: w) : ℚ) * (1/10) :=
      mul_le_mul_of_nonneg_right hv' (by norm_num)
    have hmul2 : (pronounCount d : ℚ) * (5/100) ≤
        (pronounCount (d ++ ' ' :: w) : ℚ) * (5/100) :=
      mul_le_mul_of_nonneg_right hp' (by norm_num)
    linarith

set_option maxRecDepth 10000 in
/-- Claim C3, witness: on a concrete 200-character description, appending
the word `maybe` after a space does not decrease the score. -/
theorem C3_witness :
    calculateAmbiguityScore
      ⟨"p", "t", List.replicate 200 'z', emptyInputContext⟩ ≤
    calculateAmbiguityScore
      ⟨"p", "t", List.replicate 200 'z' ++ ' ' :: "maybe".toList,
        emptyInputContext⟩ :=
  C3_main.2 ⟨"p", "t", List.replicate 200 'z', emptyInputContext⟩
    "maybe".toList (by decide) (by decide)

/-! ## Resolved context and spec output data model (src/types/schemas.ts) -/

/-- A stakeholder record of a resolved context (`StakeholderSchema`). -/
structure Stakeholder where
  name : String
  role : String
  interests : List String
deriving DecidableEq, Repr

/-- An API catalog entry (`ApiEndpointSchema`). -/
structure ApiEndpoint where
  name : String
  baseUrl : String
  endpoints : List String
deriving DecidableEq, Repr

/-- A data-model field (`DataModelFieldSchema`). -/
structure DataModelField where
  name : String
  type : String
deriving DecidableEq, Repr

/-- A data-model catalog entry (`DataModelSchema`). -/
structure DataModel where
  entity : String
  fields : List DataModelField
deriving DecidableEq, Repr

/-- The canonical resolved context (`ResolvedContextSchema`).  The two
record-typed fields (`glossary`, `labels`) are association lists in insertion
order. -/
structure ResolvedContext where
  glossary : List (String × String)
  stakeholders : List Stakeholder
  constraints : List String
  non_functional : List String
  api_catalog : List ApiEndpoint
  data_models : List DataModel
  envs : List String
  labels : List (String × String)
deriving DecidableEq, Repr

/-- A user story (`UserStorySchema`). -/
structure UserStory where
  as_a : String
  i_want : String
  so_that : String
  acceptance_criteria : List String
deriving DecidableEq, Repr

/-- A clarifying question (`ClarificationSchema`). -/
structure Clarification where
  topic : String
  question : String
  why_it_matters : String
deriving DecidableEq, Repr

/-- A functional requirement (`FunctionalRequirementSchema`). -/
structure FunctionalRequirement where
  id : String
  statement : String
deriving DecidableEq, Repr

/-- The fixed task area enumeration (`TaskAreaEnum`). -/
inductive TaskArea where
  | FE | BE | Infra | QA | Docs
deriving DecidableEq, Repr

/-- A task (`TaskSchema`). -/
structure Task where
  id : String
  title : String
  area : TaskArea
  details : String
  prereqs : List String
  artifacts : List String
deriving DecidableEq, Repr

/-- The five-point complexity tier (`ComplexityEnum`). -/
inductive Complexity where
  | XS | S | M | L | XL
deriving DecidableEq, Repr

/-- An estimation record (`EstimationSchema`); confidence is a rational in
`[0,1]` after schema validation. -/
structure Estimation where
  confidence : ℚ
  complexity : Complexity
  drivers : List String
  notes : String
deriving DecidableEq, Repr

/-- A risk record (`RiskSchema`). -/
structure Risk where
  risk : String
  mitigation : String
deriving DecidableEq, Repr

/-- A full structured specification result (`SpecOutputSchema`). -/
structure SpecOutput where
  input : SpecInput
  resolved_context : ResolvedContext
  story : UserStory
  needs_clarification : List Clarification
  assumptions : List String
  dependencies : List String
  edge_cases : List String
  functional_requirements : List FunctionalRequirement
  tasks : List Task
  estimation : Estimation
  risks : List Risk
deriving DecidableEq, Repr

/-- The result of parsing a refinement response against
`SpecOutputSchema.partial()`: every top-level field optional, `none`
modelling an absent key. -/
structure PartialSpecOutput where
  input : Option SpecInput
  resolved_context : Option ResolvedContext
  story : Option UserStory
  needs_clarification : Option (List Clarification)
  assumptions : Option (List String)
  dependencies : Option (List String)
  edge_cases : Option (List String)
  functional_requirements : Option (List FunctionalRequirement)
  tasks : Option (List Task)
  estimation : Option Estimation
  risks : Option (List Risk)
deriving DecidableEq, Repr

/-- The refinement merge performed by `handleAnswersProvided`
(src/app/page.tsx line 160): the JavaScript spread
`{ ...specResponse.json, ...refinedParts }`, a shallow top-level
replacement where every key present in the partial result wins. -/
def mergeSpec (orig : SpecOutput) (p : PartialSpecOutput) : SpecOutput where
  input := p.input.getD orig.input
  resolved_context := p.resolved_context.getD orig.resolved_context
  story := p.story.getD orig.story
  needs_clarification := p.needs_clarification.getD orig.needs_clarification
  assumptions := p.assumptions.getD orig.assumptions
  dependencies := p.dependencies.getD orig.dependencies
  edge_cases := p.edge_cases.getD orig.edge_cases
  functional_requirements :=
    p.functional_requirements.getD orig.functional_requirements
  tasks := p.tasks.getD orig.tasks
  estimation := p.estimation.getD orig.estimation
  risks := p.risks.getD orig.risks

/-- A partial result containing only an `assumptions` field. -/
def assumptionsOnly (a : List String) : PartialSpecOutput :=
  ⟨none, none, none, none, some a, none, none, none, none, none, none⟩

/-- Claim C7: the refinement merge is a shallow top-level field replacement —
every top-level field present in the partial result replaces the original
field wholesale, every absent field is left unchanged; in particular a
partial response carrying only `assumptions = ["x"]` yields the original
spec with just its `assumptions` replaced. -/
theorem C7_main :
    (∀ (orig : SpecOutput) (p : PartialSpecOutput),
      (mergeSpec orig p).input = p.input.getD orig.input ∧
      (mergeSpec orig p).resolved_context =
        p.resolved_context.getD orig.resolved_context ∧
      (mergeSpec orig p).story = p.story.getD orig.story ∧
      (mergeSpec orig p).needs_clarification =
        p.needs_clarification.getD orig.needs_clarification ∧
      (mergeSpec orig p).assumptions = p.assumptions.getD orig.assumptions ∧
      (mergeSpec orig p).dependencies =
        p.dependencies.getD orig.dependencies ∧
      (mergeSpec orig p).edge_cases = p.edge_cases.getD orig.edge_cases ∧
      (mergeSpec orig p).functional_requirements =
        p.functional_requirements.getD orig.functional_requirements ∧
      (mergeSpec orig p).tasks = p.tasks.getD orig.tasks ∧
      (mergeSpec orig p).estimation = p.estimation.getD orig.estimation ∧
      (mergeSpec orig p).risks = p.risks.getD orig.risks) ∧
    (∀ orig : SpecOutput,
      mergeSpec orig (assumptionsOnly ["x"]) =
        { orig with assumptions := ["x"] }) :=
  ⟨fun _ _ => ⟨rfl, rfl, rfl, rfl, rfl, rfl, rfl, rfl, rfl, rfl, rfl⟩,
    fun _ => rfl⟩

/-! ## Context resolver (`ProjectContextService.resolveContext` and
`deepMerge`, src/lib/projectContext.ts) -/

/-- Lookup of an object field (`o[k]`), returning `none` for an absent key. -/
def jget (o : JObj) (k : String) : Option Json :=
  (o.find? fun p => p.1 == k).map Prod.snd

/-- JavaScript property assignment `o[k] = v` on an object: an existing key
keeps its position, a new key is appended. -/
def jset (o : JObj) (k : String) (v : Json) : JObj :=
  if o.any fun p => p.1 == k then
    o.map fun p => if p.1 == k then (k, v) else p
  else o ++ [(k, v)]

/-- The own enumerable properties picked up by an object spread `{...x}`:
objects contribute their fields, arrays and strings contribute index-keyed
entries, primitives contribute nothing. -/
def objFields : Json → JObj
  | .obj l => l
  | .arr a => a.enum.map fun p => (toString p.1, p.2)
  | .str s => s.toList.enum.map fun p => (toString p.1, Json.str (String.mk [p.2]))
  | _ => []

mutual
/-- `deepMerge(target, source)` (src/lib/projectContext.ts lines 294–310):
iterate the source fields, performing one assignment per field. -/
def deepMerge : JObj → JObj → JObj
  | res, [] => res
  | res, (k, v) :: rest => deepMerge (deepMergeStep res k v) rest

/-- One iteration of the `deepMerge` loop: arrays replace wholesale, objects
recurse into `result[key] || {}` (object-spread semantics via `objFields`),
anything else replaces. -/
def deepMergeStep (res : JObj) (k : String) : Json → JObj
  | .arr a => jset res k (.arr a)
  | .obj s =>
    jset res k (.obj (deepMerge (objFields ((jget res k).getD .null)) s))
  | v => jset res k v
end

mutual
/-- The deep merge in the words of the spec: "arrays in `overrides` replace
wholesale; nested objects merge recursively key-by-key; scalars replace". -/
def specDeepMerge : JObj → JObj → JObj
  | res, [] => res
  | res, (k, v) :: rest =>
    specDeepMerge (jset res k (specMergeValue res k v)) rest

/-- The merged value at one key, in the words of the spec.  Where the spec
is silent (the inherited value at a conflicting key is not an object), the
recursion starts from that value's own enumerable properties as the code
does. -/
def specMergeValue (res : JObj) (k : String) : Json → Json
  | .arr a => .arr a
  | .obj s => .obj (specDeepMerge (objFields ((jget res k).getD .null)) s)
  | v => v
end

mutual
/-- The spec-worded merge coincides with the source's `deepMerge`. -/
theorem specDeepMerge_eq_deepMerge :
    ∀ (src : JObj) (res : JObj), specDeepMerge res src = deepMerge res src
  | [], _ => rfl
  | (k, v) :: rest, res => by
    rw [specDeepMerge, deepMerge, specMergeValue_jset v res k,
      specDeepMerge_eq_deepMerge rest]

/-- Assigning the spec-worded merged value is one `deepMerge` iteration. -/
theorem specMergeValue_jset :
    ∀ (v : Json) (res : JObj) (k : String),
      jset res k (specMergeValue res k v) = deepMergeStep res k v
  | .arr _, _, _ => rfl
  | .obj s, res, k => by
    rw [specMergeValue, deepMergeStep, specDeepMerge_eq_deepMerge s]
  | .null, _, _ => rfl
  | .bool _, _, _ => rfl
  | .num _, _, _ => rfl
  | .str _, _, _ => rfl
end

/-- `Array.from(new Set(l))` with an explicit seen-set accumulator:
duplicates removed, first occurrence order. -/
def firstDedupAux : List String → List String → List String
  | _, [] => []
  | seen, a :: l =>
    if seen.contains a then firstDedupAux seen l
    else a :: firstDedupAux (a :: seen) l

/-- `Array.from(new Set(l))`: duplicates removed, first occurrence order. -/
def firstDedup (l : List String) : List String := firstDedupAux [] l

/-- `DEFAULT_PROJECT_CONTEXT` (src/lib/projectContext.ts lines 333–342). -/
def DEFAULT_PROJECT_CONTEXT : ResolvedContext :=
  ⟨[], [], [], [], [], [], ["local", "dev", "test", "prod"], []⟩

/-- JSON form of a stakeholder record. -/
def stakeholderJson (s : Stakeholder) : Json :=
  .obj [("name", .str s.name), ("role", .str s.role),
    ("interests", .arr (s.interests.map Json.str))]

/-- JSON form of an API catalog entry. -/
def apiEndpointJson (a : ApiEndpoint) : Json :=
  .obj [("name", .str a.name), ("baseUrl", .str a.baseUrl),
    ("endpoints", .arr (a.endpoints.map Json.str))]

/-- JSON form of a data-model field. -/
def dataModelFieldJson (f : DataModelField) : Json :=
  .obj [("name", .str f.name), ("type", .str f.type)]

/-- JSON form of a data-model entry. -/
def dataModelJson (m : DataModel) : Json :=
  .obj [("entity", .str m.entity),
    ("fields", .arr (m.fields.map dataModelFieldJson))]

/-- The fields of a resolved context as a JavaScript object, in the
declaration order of `ResolvedContextSchema`. -/
def rcFields (rc : ResolvedContext) : JObj :=
  [("glossary", .obj (rc.glossary.map fun p => (p.1, Json.str p.2))),
   ("stakeholders", .arr (rc.stakeholders.map stakeholderJson)),
   ("constraints", .arr (rc.constraints.map Json.str)),
   ("non_functional", .arr (rc.non_functional.map Json.str)),
   ("api_catalog", .arr (rc.api_catalog.map apiEndpointJson)),
   ("data_models", .arr (rc.data_models.map dataModelJson)),
   ("envs", .arr (rc.envs.map Json.str)),
   ("labels", .obj (rc.labels.map fun p => (p.1, Json.str p.2)))]

/-- A resolved context as a JSON value. -/
def rcToJson (rc : ResolvedContext) : Json := .obj (rcFields rc)

/-- The stakeholder merge step: feature-level names not already present by
name are appended with the placeholder role `"Stakeholder"` and empty
interests; existing records are untouched. -/
def mergedStakeholders (inherited : List Stakeholder) (names : List String) :
    List Stakeholder :=
  inherited ++
    ((names.filter fun n => ¬ (inherited.map Stakeholder.name).contains n).map
      fun n => ⟨n, "Stakeholder", []⟩)

/-- `ProjectContextService.resolveContext` (src/lib/projectContext.ts lines
347–395).  The database read of the active context is modelled by the
`activeCtx` argument (`none` when the project has no active stored context);
the result is the JavaScript object the function returns — a `Json` value,
since the `overrides` deep merge can take it outside the `ResolvedContext`
shape.  Each merge step is guarded as in the source
(`featureContext.xs?.length` is falsy on an empty list). -/
def resolveContext (activeCtx : Option ResolvedContext)
    (fc : Option InputContext) : Json :=
  let projectDefaults := activeCtx.getD DEFAULT_PROJECT_CONTEXT
  match fc with
  | none => rcToJson projectDefaults
  | some f =>
    if ¬ f.inherit_from_project then rcToJson projectDefaults
    else
      let st := if f.stakeholders.isEmpty then projectDefaults.stakeholders
        else mergedStakeholders projectDefaults.stakeholders f.stakeholders
      let cs := if f.constraints.isEmpty then projectDefaults.constraints
        else firstDedup (projectDefaults.constraints ++ f.constraints)
      let nf := if f.non_functional.isEmpty then
          projectDefaults.non_functional
        else firstDedup (projectDefaults.non_functional ++ f.non_functional)
      let rc1 := { projectDefaults with
        stakeholders := st, constraints := cs, non_functional := nf }
      match f.overrides with
      | some ov => .obj (deepMerge (rcFields rc1) ov)
      | none => rcToJson rc1

/-- The reference merge exactly as claim C5 states it: unconditional
stakeholder append, unconditional duplicate-free unions for constraints and
non-functional requirements, then the overrides deep merge. -/
def claimResolve (a : ResolvedContext) (f : InputContext) : Json :=
  let rc1 := { a with
    stakeholders := mergedStakeholders a.stakeholders f.stakeholders,
    constraints := firstDedup (a.constraints ++ f.constraints),
    non_functional := firstDedup (a.non_functional ++ f.non_functional) }
  match f.overrides with
  | some ov => .obj (specDeepMerge (rcFields rc1) ov)
  | none => rcToJson rc1

/-- The amended reference merge: as the claim, except that the
constraints/non-functional union is only applied when the feature-level list
is non-empty — an empty feature list leaves the inherited list untouched,
internal duplicates included. -/
def amendedResolve (a : ResolvedContext) (f : InputContext) : Json :=
  let cs := if f.constraints.isEmpty then a.constraints
    else firstDedup (a.constraints ++ f.constraints)
  let nf := if f.non_functional.isEmpty then a.non_functional
    else firstDedup (a.non_functional ++ f.non_functional)
  let rc1 := { a with
    stakeholders := mergedStakeholders a.stakeholders f.stakeholders,
    constraints := cs, non_functional := nf }
  match f.overrides with
  | some ov => .obj (specDeepMerge (rcFields rc1) ov)
  | none => rcToJson rc1

/-- Merging an empty feature stakeholder list changes nothing. -/
theorem mergedStakeholders_nil (inherited : List Stakeholder) :
    mergedStakeholders inherited [] = inherited := by
  simp [mergedStakeholders]

/-- Claim C4: with an absent feature context or `inherit_from_project`
false, `resolveContext` returns the active context verbatim; and when the
project has no active stored context it returns the documented default —
empty glossary, stakeholders, constraints, non-functional requirements, API
catalog, data models and labels, and envs
`["local", "dev", "test", "prod"]` — rather than failing. -/
theorem C4_main :
    (∀ (a : Option ResolvedContext) (fc : Option InputContext),
      (fc = none ∨ ∃ f, fc = some f ∧ f.inherit_from_project = false) →
      resolveContext a fc = rcToJson (a.getD DEFAULT_PROJECT_CONTEXT)) ∧
    (∀ fc : Option InputContext,
      (fc = none ∨ ∃ f, fc = some f ∧ f.inherit_from_project = false) →
      resolveContext none fc =
        rcToJson ⟨[], [], [], [], [], [],
          ["local", "dev", "test", "prod"], []⟩) := by
  have h1 : ∀ (a : Option ResolvedContext) (fc : Option InputContext),
      (fc = none ∨ ∃ f, fc = some f ∧ f.inherit_from_project = false) →
      resolveContext a fc = rcToJson (a.getD DEFAULT_PROJECT_CONTEXT) := by
    intro a fc h
    rcases h with h | ⟨f, hfc, hf⟩
    · subst h; rfl
    · subst hfc
      simp [resolveContext, hf]
  exact ⟨h1, fun fc h => h1 none fc h⟩

/-- Claim C4, witness: resolving with no stored context and no feature
context yields the default context. -/
theorem C4_witness :
    resolveContext none none =
      rcToJson ⟨[], [], [], [], [], [],
        ["local", "dev", "test", "prod"], []⟩ :=
  C4_main.2 none (Or.inl rfl)

/-- Claim C5, counterexample: with an inherited constraints list
`["a", "a"]` and an empty feature context (inheritance on), the code skips
the union entirely — the `featureContext.constraints?.length` guard is
falsy — and returns the duplicates untouched, while the claimed reference
merge always produces the duplicate-free union `["a"]`. -/
theorem C5_counterexample :
    resolveContext
      (some ⟨[], [], ["a", "a"], [], [], [],
        ["local", "dev", "test", "prod"], []⟩)
      (some ⟨[], [], [], [], true, none⟩) ≠
    claimResolve
      ⟨[], [], ["a", "a"], [], [], [], ["local", "dev", "test", "prod"], []⟩
      ⟨[], [], [], [], true, none⟩ := by decide

/-- Claim C5 (amended): for every active context and inheriting feature
context, `resolveContext` equals the reference merge in which the
stakeholder append is as claimed, the constraints and non-functional unions
are applied only when the feature-level list is non-empty (an empty feature
list leaves the inherited list unchanged, duplicates included), and the
overrides deep merge is applied last, arrays replacing wholesale, nested
objects merging recursively, scalars replacing. -/
theorem C5_main :
    ∀ (a : ResolvedContext) (f : InputContext),
      f.inherit_from_project = true →
      resolveContext (some a) (some f) = amendedResolve a f := by
  intro a f h
  unfold resolveContext amendedResolve
  dsimp only
  rw [h]
  rw [if_neg (by simp)]
  cases hs : f.stakeholders with
  | nil =>
    cases ho : f.overrides with
    | none => simp [mergedStakeholders_nil]
    | some ov => simp [mergedStakeholders_nil, specDeepMerge_eq_deepMerge]
  | cons n ns =>
    cases ho : f.overrides with
    | none => simp
    | some ov => simp [specDeepMerge_eq_deepMerge]

/-- Claim C5, witness: a concrete inheriting merge with a new stakeholder, a
constraint union and a label override agrees with the amended reference. -/
theorem C5_witness :
    resolveContext
      (some ⟨[], [⟨"A", "PO", []⟩], ["c"], [], [], [],
        ["local", "dev", "test", "prod"], []⟩)
      (some ⟨["A", "B"], ["c", "d"], [], [], true,
        some [("labels", Json.obj [("k", Json.str "v")])]⟩) =
    amendedResolve
      ⟨[], [⟨"A", "PO", []⟩], ["c"], [], [], [],
        ["local", "dev", "test", "prod"], []⟩
      ⟨["A", "B"], ["c", "d"], [], [], true,
        some [("labels", Json.obj [("k", Json.str "v")])]⟩ :=
  C5_main _ _ rfl

/-! ## Project context version store (`ProjectContextService.createProjectContext`
/ `activateContextVersion`, src/lib/projectContext.ts lines 398–425 and 475–478,
backed by `DatabaseService.createProjectContext` / `activateProjectContext` /
`deactivateProjectContexts`, src/lib/database.ts lines 175–219). -/

/-- A Bool that is not true is false. -/
theorem bool_eq_false {b : Bool} (h : ¬ b = true) : b = false := by
  cases b
  · rfl
  · exact absurd rfl h

/-- A stored project-context version record; the context payload is
irrelevant to claim C6 and omitted.  `is_active` models the stored 1/0
flag, `created_at` the `new Date()` timestamp set by
`DatabaseService.createProjectContext`. -/
structure CtxRecord where
  id : ℕ
  project_id : String
  version : ℕ
  is_active : Bool
  created_at : ℕ
deriving DecidableEq, Repr

/-- The context store: the list of records in insertion order plus a fresh-id
counter modelling `uuidv4()`. -/
structure CtxStore where
  records : List CtxRecord
  nextId : ℕ
deriving DecidableEq, Repr

/-- One component of an IndexedDB array key (only string and number
components occur here). -/
inductive IDBKeyPart where
  | str (s : String)
  | num (n : ℕ)
deriving DecidableEq, Repr

/-- The index key the `by-project-created` index stores for a record: its
keyPath is `['project_id', 'created_at']`, so the key is the two-element
array `[r.project_id, r.created_at]`. -/
def byProjectCreatedKey (r : CtxRecord) : List IDBKeyPart :=
  [IDBKeyPart.str r.project_id, IDBKeyPart.num r.created_at]

/-- `DatabaseService.getProjectContexts(projectId)`:
`getAllFromIndex('project_contexts', 'by-project-created', [projectId])`.
The bare query key is wrapped as `IDBKeyRange.only([projectId])`, which
matches exactly the records whose stored index key equals the one-element
array key `[projectId]`. -/
def getProjectContexts (s : CtxStore) (p : String) : List CtxRecord :=
  s.records.filter fun r => byProjectCreatedKey r == [IDBKeyPart.str p]

/-- The `by-project-created` query key has one component while every stored
index key has two, so no record ever matches: `getProjectContexts` returns
the empty list on every store. -/
theorem getProjectContexts_eq_nil (s : CtxStore) (p : String) :
    getProjectContexts s p = [] := by
  unfold getProjectContexts
  induction s.records with
  | nil => rfl
  | cons r l ih =>
    have hk : (byProjectCreatedKey r == [IDBKeyPart.str p]) = false := by
      simp [byProjectCreatedKey]
    simp only [List.filter_cons, hk, Bool.false_eq_true, if_false]
    exact ih

/-- `Math.max(...versions)` for a version list (0 on an empty list; only
used beneath a non-emptiness guard, as in the source). -/
def maxVersion (l : List CtxRecord) : ℕ :=
  l.foldr (fun r acc => max r.version acc) 0

/-- Modelled from the spec's words: the stored versions that "exist" for a
project, i.e. the records bearing its project id. -/
def specProjectVersions (s : CtxStore) (p : String) : List CtxRecord :=
  s.records.filter fun r => r.project_id == p

/-- Modelled from the spec's words: the version number the spec says
`createVersion` assigns — (max existing version)+1, or 1 if none exist. -/
def specNextVersion (s : CtxStore) (p : String) : ℕ :=
  if (specProjectVersions s p).length > 0 then
    maxVersion (specProjectVersions s p) + 1
  else 1

/-- The record update performed by `deactivateProjectContexts` when a new
active version is created: when `activate` is set, every active record of
the project is deactivated; otherwise records are untouched. -/
def deactOnCreate (activate : Bool) (p : String) (r : CtxRecord) : CtxRecord :=
  if activate && (r.project_id == p && r.is_active) then
    { r with is_active := false }
  else r

/-- The record appended by `createProjectContext`: a fresh id, the requested
project, version `Math.max(...existingContexts.map(c => c.version)) + 1`
when `existingContexts.length > 0` and 1 otherwise — where
`existingContexts` is what `getProjectContexts` actually returns — the
requested active flag, and the creation timestamp. -/
def newRecord (s : CtxStore) (p : String) (activate : Bool) (t : ℕ) :
    CtxRecord :=
  ⟨s.nextId, p,
    if (getProjectContexts s p).length > 0 then
      maxVersion (getProjectContexts s p) + 1
    else 1, activate, t⟩

/-- `ProjectContextService.createProjectContext`: compute the next version
number from `getProjectContexts`, deactivate the project's active versions
when the new one is to be active, then append the new record (`t` is the
`new Date()` timestamp). -/
def createVersion (s : CtxStore) (p : String) (activate : Bool) (t : ℕ) :
    CtxStore :=
  ⟨s.records.map (deactOnCreate activate p) ++ [newRecord s p activate t],
    s.nextId + 1⟩

/-- The record update performed by `activateProjectContext` once the target
record (project `cproj`, id `cid`) has been found: deactivate the project's
active records, then store the target with the active flag set. -/
def actFun (cid : ℕ) (cproj : String) (r : CtxRecord) : CtxRecord :=
  if r.id == cid then { r with is_active := true }
  else if r.project_id == cproj && r.is_active then
    { r with is_active := false }
  else r

/-- `DatabaseService.activateProjectContext`: find the record, deactivate
the project's other active versions, then activate the target.  An unknown
id throws, leaving the store unchanged. -/
def activateVersion (s : CtxStore) (cid : ℕ) : CtxStore :=
  match s.records.find? fun r => r.id == cid with
  | none => s
  | some c => { s with records := s.records.map (actFun cid c.project_id) }

/-- The number of active versions a project has. -/
def activeCount (s : CtxStore) (p : String) : ℕ :=
  s.records.countP fun r => r.project_id == p && r.is_active

/-- Stores reachable from the empty store by any sequence of
`createVersion` / `activateVersion` calls. -/
inductive Reachable : CtxStore → Prop where
  | empty : Reachable ⟨[], 0⟩
  | create (s : CtxStore) (p : String) (b : Bool) (t : ℕ) :
      Reachable s → Reachable (createVersion s p b t)
  | activate (s : CtxStore) (cid : ℕ) :
      Reachable s → Reachable (activateVersion s cid)

/-- The store invariant: record ids are distinct and below the fresh-id
counter, and every project has at most one active version. -/
def GoodStore (s : CtxStore) : Prop :=
  (s.records.map CtxRecord.id).Nodup ∧
  (∀ r ∈ s.records, r.id < s.nextId) ∧
  (∀ p, activeCount s p ≤ 1)

/-- `deactOnCreate` keeps the id. -/
theorem deactOnCreate_id (b : Bool) (p : String) (r : CtxRecord) :
    (deactOnCreate b p r).id = r.id := by
  unfold deactOnCreate; split <;> rfl

/-- `actFun` keeps the id. -/
theorem actFun_id (cid : ℕ) (cp : String) (r : CtxRecord) :
    (actFun cid cp r).id = r.id := by
  unfold actFun
  split
  · rfl
  · split <;> rfl

/-- An id-preserving update leaves the id column unchanged. -/
theorem map_upd_id (recs : List CtxRecord) (upd : CtxRecord → CtxRecord)
    (h : ∀ r, (upd r).id = r.id) :
    (recs.map upd).map CtxRecord.id = recs.map CtxRecord.id := by
  induction recs with
  | nil => rfl
  | cons r l ih => simp [h r, ih]

/-- Counting a mapped list against a pointwise-computed predicate. -/
theorem countP_map_congr (recs : List CtxRecord)
    (upd : CtxRecord → CtxRecord) (pred pred' : CtxRecord → Bool)
    (h : ∀ r ∈ recs, pred (upd r) = pred' r) :
    (recs.map upd).countP pred = recs.countP pred' := by
  induction recs with
  | nil => rfl
  | cons r l ih =>
    rw [List.map_cons, List.countP_cons, List.countP_cons,
      h r (List.mem_cons_self r l),
      ih fun x hx => h x (List.mem_cons_of_mem r hx)]

/-- With distinct ids, at most one record matches a given id. -/
theorem countP_id_le_one (recs : List CtxRecord)
    (hnd : (recs.map CtxRecord.id).Nodup) (cid : ℕ) :
    recs.countP (fun r => r.id == cid) ≤ 1 := by
  induction recs with
  | nil => simp
  | cons r l ih =>
    rw [List.map_cons, List.nodup_cons] at hnd
    obtain ⟨hni, hnd⟩ := hnd
    rw [List.countP_cons]
    by_cases hc : (r.id == cid) = true
    · have hid : r.id = cid := by simpa using hc
      have hzero : l.countP (fun x => x.id == cid) = 0 := by
        rw [List.countP_eq_zero]
        intro x hx hxc
        have hxid : x.id = cid := by simpa using hxc
        exact hni (by
          rw [hid, ← hxid]
          exact List.mem_map_of_mem CtxRecord.id hx)
      simp [hzero, hc]
    · simp only [hc, if_false]
      simpa using ih hnd

/-- Records with equal ids are equal in a duplicate-free store. -/
theorem eq_of_id_eq {recs : List CtxRecord}
    (hnd : (recs.map CtxRecord.id).Nodup) {r c : CtxRecord}
    (hr : r ∈ recs) (hc : c ∈ recs) (hid : r.id = c.id) : r = c :=
  List.inj_on_of_nodup_map hnd hr hc hid

/-- After deactivation for project `p`, no record of `p` is active. -/
theorem deactOnCreate_pred_self (p : String) (r : CtxRecord) :
    ((deactOnCreate true p r).project_id == p &&
      (deactOnCreate true p r).is_active) = false := by
  unfold deactOnCreate
  cases h : (r.project_id == p && r.is_active) with
  | true => simp [h]
  | false => simp only [Bool.true_and, h, if_false]; exact h

/-- Deactivation for project `p` does not change whether a record counts
for a different project `q`. -/
theorem deactOnCreate_pred_other (b : Bool) (p q : String) (hq : p ≠ q)
    (r : CtxRecord) :
    ((deactOnCreate b p r).project_id == q &&
      (deactOnCreate b p r).is_active) =
      (r.project_id == q && r.is_active) := by
  unfold deactOnCreate
  cases h : (b && (r.project_id == p && r.is_active)) with
  | true =>
    simp only [h, if_true]
    rw [Bool.and_eq_true, Bool.and_eq_true] at h
    have hp : r.project_id = p := by simpa using h.2.1
    have hqf : (p == q) = false := by simpa using hq
    simp [hp, hqf, h.2.2]
  | false => simp [h]

/-- `createVersion` preserves the store invariant. -/
theorem good_create (s : CtxStore) (p : String) (b : Bool) (t : ℕ)
    (h : GoodStore s) : GoodStore (createVersion s p b t) := by
  obtain ⟨hnd, hbound, hcnt⟩ := h
  have hrec : (createVersion s p b t).records =
      s.records.map (deactOnCreate b p) ++ [newRecord s p b t] := rfl
  have hnext : (createVersion s p b t).nextId = s.nextId + 1 := rfl
  refine ⟨?_, ?_, ?_⟩
  · rw [hrec, List.map_append, map_upd_id _ _ (deactOnCreate_id b p),
      List.nodup_append]
    refine ⟨hnd, List.nodup_singleton _, ?_⟩
    intro x hx hx2
    obtain ⟨r, hrmem, hrid⟩ := List.mem_map.mp hx
    have hlt := hbound r hrmem
    have hxid : x = s.nextId := by
      simpa [newRecord] using hx2
    rw [← hrid] at hxid
    omega
  · intro r hr
    rw [hrec, List.mem_append] at hr
    rw [hnext]
    rcases hr with hr | hr
    · obtain ⟨r0, hr0, hupd⟩ := List.mem_map.mp hr
      have hid : r.id = r0.id := by rw [← hupd]; exact deactOnCreate_id b p r0
      have := hbound r0 hr0
      omega
    · rw [List.mem_singleton] at hr
      rw [hr]
      show s.nextId < s.nextId + 1
      omega
  · intro q
    show ((createVersion s p b t).records).countP
      (fun r => r.project_id == q && r.is_active) ≤ 1
    rw [hrec, List.countP_append]
    cases b with
    | false =>
      have hmap : (s.records.map (deactOnCreate false p)).countP
          (fun r => r.project_id == q && r.is_active) =
          s.records.countP (fun r => r.project_id == q && r.is_active) := by
        refine countP_map_congr _ _ _ _ ?_
        intro r _
        simp [deactOnCreate]
      have hnew : List.countP (fun r => r.project_id == q && r.is_active)
          [newRecord s p false t] = 0 := by
        simp [List.countP_cons, newRecord]
      rw [hmap, hnew]
      simpa using hcnt q
    | true =>
      by_cases hq : p = q
      · subst hq
        have hmap : (s.records.map (deactOnCreate true p)).countP
            (fun r => r.project_id == p && r.is_active) = 0 := by
          rw [List.countP_eq_zero]
          intro x hx
          obtain ⟨r0, hr0, hupd⟩ := List.mem_map.mp hx
          rw [← hupd, deactOnCreate_pred_self p r0]
          simp
        have hnew : List.countP (fun r => r.project_id == p && r.is_active)
            [newRecord s p true t] = 1 := by
          simp [List.countP_cons, newRecord]
        rw [hmap, hnew]
      · have hmap : (s.records.map (deactOnCreate true p)).countP
            (fun r => r.project_id == q && r.is_active) =
            s.records.countP (fun r => r.project_id == q && r.is_active) :=
          countP_map_congr _ _ _ _ fun r _ =>
            deactOnCreate_pred_other true p q hq r
        have hnew : List.countP (fun r => r.project_id == q && r.is_active)
            [newRecord s p true t] = 0 := by
          have hpq : (p == q) = false := by simpa using hq
          simp [List.countP_cons, newRecord, hpq]
        rw [hmap, hnew]
        simpa using hcnt q

/-- `activateVersion` preserves the store invariant. -/
theorem good_activate (s : CtxStore) (cid : ℕ)
    (h : GoodStore s) : GoodStore (activateVersion s cid) := by
  obtain ⟨hnd, hbound, hcnt⟩ := h
  unfold activateVersion
  cases hfind : s.records.find? fun r => r.id == cid with
  | none => exact ⟨hnd, hbound, hcnt⟩
  | some c =>
    have hcmem : c ∈ s.records := List.mem_of_find?_eq_some hfind
    have hcid : c.id = cid := by
      have := List.find?_some hfind
      simpa using this
    refine ⟨?_, ?_, ?_⟩
    · show ((s.records.map (actFun cid c.project_id)).map CtxRecord.id).Nodup
      rw [map_upd_id _ _ (actFun_id cid c.project_id)]
      exact hnd
    · intro r hr
      obtain ⟨r0, hr0, hupd⟩ := List.mem_map.mp hr
      have hid : r.id = r0.id := by
        rw [← hupd]; exact actFun_id cid c.project_id r0
      show r.id < s.nextId
      rw [hid]
      exact hbound r0 hr0
    · intro q
      show (s.records.map (actFun cid c.project_id)).countP
        (fun r => r.project_id == q && r.is_active) ≤ 1
      by_cases hq : c.project_id = q
      · subst hq
        have hpt : ∀ r ∈ s.records,
            ((actFun cid c.project_id r).project_id == c.project_id &&
              (actFun cid c.project_id r).is_active) = (r.id == cid) := by
          intro r hr
          cases h1 : (r.id == cid) with
          | true =>
            have hrc : r = c :=
              eq_of_id_eq hnd hr hcmem (by rw [hcid]; simpa using h1)
            have hrp : r.project_id = c.project_id := by rw [hrc]
            simp [actFun, h1, hrp]
          | false =>
            cases h2 : (r.project_id == c.project_id && r.is_active) with
            | true => simp [actFun, h1, h2]
            | false => simp [actFun, h1, h2]
        rw [countP_map_congr _ _ _ _ hpt]
        exact countP_id_le_one _ hnd cid
      · have hpt : ∀ r ∈ s.records,
            ((actFun cid c.project_id r).project_id == q &&
              (actFun cid c.project_id r).is_active) =
              (r.project_id == q && r.is_active) := by
          intro r hr
          cases h1 : (r.id == cid) with
          | true =>
            have hrc : r = c :=
              eq_of_id_eq hnd hr hcmem (by rw [hcid]; simpa using h1)
            have hrpq : (r.project_id == q) = false := by
              rw [hrc]; simpa using hq
            simp [actFun, h1, hrpq]
          | false =>
            cases h2 : (r.project_id == c.project_id && r.is_active) with
            | true =>
              have hrp : r.project_id = c.project_id := by
                rw [Bool.and_eq_true] at h2
                simpa using h2.1
              have hrq : (r.project_id == q) = false := by
                rw [hrp]; simpa using hq
              simp [actFun, h1, h2, hrq]
            | false => simp [actFun, h1, h2]
        rw [countP_map_congr _ _ _ _ hpt]
        exact hcnt q

/-- Every reachable store satisfies the invariant. -/
theorem reachable_good {s : CtxStore} (h : Reachable s) : GoodStore s := by
  induction h with
  | empty => exact ⟨by simp, by simp, fun p => by simp [activeCount]⟩
  | create s p b t _ ih => exact good_create s p b t ih
  | activate s cid _ ih => exact good_activate s cid ih

/-- Claim C6: the claimed version numbering diverges from the code.
`getProjectContexts` queries the compound index `by-project-created`
(stored keys `[project_id, created_at]`, two components) with the
one-element key `[projectId]`, which matches no stored key, so it returns
`[]` on every store; hence `createProjectContext` always assigns version 1,
never `max existing + 1`.  Concretely, creating twice for the same project
yields two records both numbered 1, where the spec's numbering
(`specNextVersion`) would give the second the number 2.  At most one
version per project is ever active, but the claimed "exactly one" also
fails: a creation with `activate = false` (as `importContext` performs)
leaves versions present and none active. -/
theorem C6_main :
    (∀ (s : CtxStore) (p : String), getProjectContexts s p = []) ∧
    (∀ (s : CtxStore) (p : String) (b : Bool) (t : ℕ),
      ((createVersion s p b t).records.getLast?).map CtxRecord.version =
        some 1) ∧
    (Reachable (createVersion (createVersion ⟨[], 0⟩ "p" true 0) "p" true 1) ∧
      (createVersion (createVersion ⟨[], 0⟩ "p" true 0) "p" true 1).records.map
        CtxRecord.version = [1, 1] ∧
      specNextVersion (createVersion ⟨[], 0⟩ "p" true 0) "p" = 2) ∧
    (∀ s : CtxStore, Reachable s → ∀ p : String, activeCount s p ≤ 1) ∧
    ((createVersion ⟨[], 0⟩ "p" false 0).records ≠ [] ∧
      activeCount (createVersion ⟨[], 0⟩ "p" false 0) "p" = 0) := by
  refine ⟨getProjectContexts_eq_nil, ?_, ⟨?_, by decide, by decide⟩,
    fun s h p => (reachable_good h).2.2 p, by decide, by decide⟩
  · intro s p b t
    have hrec : (createVersion s p b t).records =
        s.records.map (deactOnCreate b p) ++ [newRecord s p b t] := rfl
    rw [hrec, List.getLast?_concat]
    simp [newRecord, getProjectContexts_eq_nil]
  · exact Reachable.create _ "p" true 1
      (Reachable.create ⟨[], 0⟩ "p" true 0 Reachable.empty)

/-- Claim C6, witness: a store reached by one activated creation has at
most one active version for that project. -/
theorem C6_witness :
    activeCount (createVersion ⟨[], 0⟩ "q" true 0) "q" ≤ 1 :=
  C6_main.2.2.2.1 _ (Reachable.create ⟨[], 0⟩ "q" true 0 Reachable.empty) "q"

/-! ## Configuration manager (`LLMConfigManager.setActiveConfiguration`,
src/lib/llm/config.ts lines 183–209, backed by
`DatabaseService.updateLLMConfig`, src/lib/database.ts lines 315–344). -/

/-- A stored LLM configuration record; only the id and active flag matter
for claim C8. -/
structure StoreRecord where
  id : String
  is_active : Bool
deriving DecidableEq, Repr

/-- The manager's observable state: the in-memory configuration ids, the
in-memory active pointer, and the backing store. -/
structure ManagerState where
  configIds : List String
  activeConfigId : Option String
  store : List StoreRecord
deriving DecidableEq, Repr

/-- Error raised by `setActiveConfiguration` on an unknown id
(`Configuration ${id} not found`). -/
inductive ConfigError where
  | configurationNotFound
deriving DecidableEq, Repr

/-- One step of the deactivation loop: an active record is stored back with
`is_active: 0`. -/
def deactRecord (r : StoreRecord) : StoreRecord :=
  if r.is_active then { r with is_active := false } else r

/-- Activation of the target record in the store; `updateLLMConfig` throws
when the id is missing from the store, and `setActiveConfiguration`
swallows store errors, so a missing id leaves the store as the deactivation
loop left it. -/
def activateInStore (store : List StoreRecord) (id : String) :
    List StoreRecord :=
  if store.any fun r => r.id == id then
    store.map fun r => if r.id == id then { r with is_active := true } else r
  else store

/-- `LLMConfigManager.setActiveConfiguration`: fail with
`ConfigurationNotFound` when the id is not in the in-memory map (the memory
and store untouched — the throw happens before any assignment); otherwise
point the in-memory active id at the target, deactivate every active store
record, then activate the target in the store. -/
def setActiveConfiguration (s : ManagerState) (id : String) :
    Except ConfigError ManagerState :=
  if s.configIds.contains id then
    .ok { s with
      activeConfigId := some id,
      store := activateInStore (s.store.map deactRecord) id }
  else .error .configurationNotFound

/-- `deactRecord` keeps the id. -/
theorem deactRecord_id (r : StoreRecord) : (deactRecord r).id = r.id := by
  unfold deactRecord; split <;> rfl

/-- `deactRecord` always yields an inactive record. -/
theorem deactRecord_active (r : StoreRecord) :
    (deactRecord r).is_active = false := by
  unfold deactRecord
  cases h : r.is_active with
  | true => simp [h]
  | false => simp [h]

/-- Claim C8: `setActive` on an unknown id always fails with
`ConfigurationNotFound`, leaving the state (in particular the previously
active id) unchanged; on a known id — in a state whose in-memory
configurations are all present in the backing store — the target becomes
the in-memory active id and the only record flagged active in the store. -/
theorem C8_main :
    (∀ (s : ManagerState) (id : String),
      s.configIds.contains id = false →
      setActiveConfiguration s id = .error .configurationNotFound) ∧
    (∀ (s : ManagerState) (id : String) (s' : ManagerState),
      s.configIds.contains id = true →
      (∀ c ∈ s.configIds, ∃ r ∈ s.store, r.id = c) →
      setActiveConfiguration s id = .ok s' →
      s'.activeConfigId = some id ∧
        ∀ r ∈ s'.store, (r.is_active = true ↔ r.id = id)) := by
  constructor
  · intro s id h
    have hni : ¬ id ∈ s.configIds := by simpa using h
    simp [setActiveConfiguration, hni]
  · intro s id s' hmem hcover heq
    simp only [setActiveConfiguration, hmem, if_true] at heq
    have hs' : s' = { s with
        activeConfigId := some id,
        store := activateInStore (s.store.map deactRecord) id } := by
      cases heq; rfl
    subst hs'
    refine ⟨rfl, ?_⟩
    -- the target id is present in the store
    have hid : id ∈ s.configIds := by simpa using hmem
    obtain ⟨r0, hr0, hr0id⟩ := hcover id hid
    have hany : ((s.store.map deactRecord).any fun r => r.id == id) = true := by
      rw [List.any_eq_true]
      exact ⟨deactRecord r0, List.mem_map_of_mem deactRecord hr0,
        by rw [deactRecord_id, hr0id]; simp⟩
    intro r hr
    simp only [activateInStore, hany, if_true] at hr
    obtain ⟨r1, hr1, hupd⟩ := List.mem_map.mp hr
    obtain ⟨r2, hr2, hdeact⟩ := List.mem_map.mp hr1
    subst hupd
    cases h1 : (r1.id == id) with
    | true =>
      have hid1 : r1.id = id := by simpa using h1
      simp [h1, hid1]
    | false =>
      subst hdeact
      have hne : ¬ (deactRecord r2).id = id := by simpa using h1
      simp [h1, deactRecord_active, hne]

/-- Claim C8, witness: in a concrete two-configuration state, activating
"b" makes "b" the in-memory active id and the only active store record. -/
theorem C8_witness :
    (⟨["a", "b"], some "b",
      activateInStore ([⟨"a", true⟩, ⟨"b", false⟩].map deactRecord) "b"⟩ :
        ManagerState).activeConfigId = some "b" ∧
      ∀ r ∈ (⟨["a", "b"], some "b",
        activateInStore ([⟨"a", true⟩, ⟨"b", false⟩].map deactRecord) "b"⟩ :
          ManagerState).store, (r.is_active = true ↔ r.id = "b") :=
  C8_main.2 ⟨["a", "b"], some "a", [⟨"a", true⟩, ⟨"b", false⟩]⟩ "b" _
    (by decide) (by decide) rfl

/-! ## Template engine (`TemplateEngine.render` / `interpolate`,
src/lib/llm/templates/engine.ts).

The current date observed by `new Date()` during interpolation is modelled
by the `today` argument, the ISO date part `YYYY-MM-DD` as characters;
`{{today_id}}` is that string with the dashes removed, as in the source. -/

/-- JavaScript `trim()`: strip whitespace from both ends. -/
def jsTrim (s : List Char) : List Char :=
  ((s.dropWhile Char.isWhitespace).reverse.dropWhile Char.isWhitespace).reverse

/-- Splitting on the dot character (JavaScript `path.split('.')`),
keeping empty fragments. -/
def splitDot : List Char → List (List Char)
  | [] => [[]]
  | c :: rest =>
    if c = '.' then [] :: splitDot rest
    else
      match splitDot rest with
      | [] => [[c]]
      | t :: ts => (c :: t) :: ts

/-- The regex test `/^\d+$/.test(k)`. -/
def isAllDigits (k : List Char) : Bool :=
  !k.isEmpty && k.all fun c => '0' ≤ c ∧ c ≤ '9'

/-- Decimal digits to a number (`parseInt(k, 10)` on an all-digit key). -/
def digitsToNat (k : List Char) : ℕ :=
  k.foldl (fun acc c => acc * 10 + (c.toNat - 48)) 0

/-- One property access `current[key]` of `getNestedValue`
(src/lib/llm/templates/engine.ts lines 113–126): array indices are handled
explicitly; otherwise plain property access applies — object fields,
string/array `length`, string indices; primitives have no properties. -/
def getProp (j : Json) (k : List Char) : Option Json :=
  match j with
  | .obj l => jget l (String.mk k)
  | .arr a =>
    if isAllDigits k then a.get? (digitsToNat k)
    else if k = "length".toList then some (.num a.length) else none
  | .str s =>
    if isAllDigits k then
      (s.toList.get? (digitsToNat k)).map fun c => Json.str (String.mk [c])
    else if k = "length".toList then some (.num s.toList.length) else none
  | _ => none

/-- `getNestedValue(obj, path)`: a `reduce` over the dot-separated keys,
with `null`/`undefined` propagating as `undefined`. -/
def getNested (ctx : Json) (path : List Char) : Option Json :=
  (splitDot path).foldl (fun cur k => cur.bind fun j => getProp j k) (some ctx)

/-- JavaScript number formatting for the values the engine prints;
integral rationals print with no decimal point. -/
def ratToChars (q : ℚ) : List Char :=
  if q.den = 1 then (toString q.num).toList else (toString q).toList

/-- JSON string escaping for the stringifiers. -/
def escapeJson (s : String) : List Char :=
  s.toList.foldr
    (fun c acc =>
      (if c = '"' then ['\\', '"']
        else if c = '\\' then ['\\', '\\']
        else if c = '\n' then ['\\', 'n']
        else if c = '\t' then ['\\', 't']
        else if c = '\r' then ['\\', 'r']
        else [c]) ++ acc) []

/-- Concatenation with a separator. -/
def joinList (sep : List Char) : List (List Char) → List Char
  | [] => []
  | [x] => x
  | x :: xs => x ++ sep ++ joinList sep xs

mutual
/-- Size of a JSON value, used as recursion fuel for the stringifiers. -/
def Json.jsize : Json → ℕ
  | .arr a => Json.jsizeList a + 1
  | .obj o => Json.jsizeObj o + 1
  | _ => 1

def Json.jsizeList : List Json → ℕ
  | [] => 0
  | v :: vs => Json.jsize v + Json.jsizeList vs + 1

def Json.jsizeObj : JObj → ℕ
  | [] => 0
  | (_, v) :: rest => Json.jsize v + Json.jsizeObj rest + 1
end

/-- `JSON.stringify(v)` (compact form, used for the render cache key),
with fuel making the nested recursion structural. -/
def jsonStringifyCompactFuel : ℕ → Json → List Char
  | 0, _ => []
  | _, .null => "null".toList
  | _, .bool true => "true".toList
  | _, .bool false => "false".toList
  | _, .num q => ratToChars q
  | _, .str s => '"' :: (escapeJson s ++ ['"'])
  | fuel + 1, .arr a =>
    '[' :: (joinList [','] (a.map fun v => jsonStringifyCompactFuel fuel v) ++
      [']'])
  | fuel + 1, .obj o =>
    lb :: (joinList [','] (o.map fun p =>
      '"' :: (escapeJson p.1 ++ ['"', ':'] ++
        jsonStringifyCompactFuel fuel p.2)) ++ [rb])

/-- `JSON.stringify(v)`; `v.jsize` strictly dominates the nesting depth,
so the fuel never runs out. -/
def jsonStringifyCompact (v : Json) : List Char :=
  jsonStringifyCompactFuel v.jsize v

/-- Spaces of an indentation level. -/
def indentChars (n : ℕ) : List Char := List.replicate n ' '

/-- `JSON.stringify(v, null, 2)` — the pretty form used by the
`{{JSON.stringify(var)}}` template form. -/
def jsonStringifyPrettyFuel : ℕ → ℕ → Json → List Char
  | 0, _, _ => []
  | _, _, .null => "null".toList
  | _, _, .bool true => "true".toList
  | _, _, .bool false => "false".toList
  | _, _, .num q => ratToChars q
  | _, _, .str s => '"' :: (escapeJson s ++ ['"'])
  | _ + 1, _, .arr [] => ['[', ']']
  | fuel + 1, ind, .arr a =>
    '[' :: '\n' ::
      (joinList (",\n".toList) (a.map fun v =>
        indentChars (ind + 2) ++ jsonStringifyPrettyFuel fuel (ind + 2) v) ++
        '\n' :: indentChars ind ++ [']'])
  | _ + 1, _, .obj [] => [lb, rb]
  | fuel + 1, ind, .obj o =>
    lb :: '\n' ::
      (joinList (",\n".toList) (o.map fun p =>
        indentChars (ind + 2) ++ '"' :: (escapeJson p.1 ++ ['"', ':', ' ']) ++
          jsonStringifyPrettyFuel fuel (ind + 2) p.2) ++
        '\n' :: indentChars ind ++ [rb])

/-- `JSON.stringify(v, null, 2)`. -/
def jsonStringifyPretty (v : Json) : List Char :=
  jsonStringifyPrettyFuel v.jsize 0 v

/-- JavaScript `String(v)` for the values the engine substitutes: strings
verbatim, numbers and booleans printed, arrays joined with commas
(`null` entries empty), objects as `[object Object]`. -/
def jsToStringFuel : ℕ → Json → List Char
  | 0, _ => []
  | _, .null => "null".toList
  | _, .bool true => "true".toList
  | _, .bool false => "false".toList
  | _, .num q => ratToChars q
  | _, .str s => s.toList
  | fuel + 1, .arr a =>
    joinList [','] (a.map fun v =>
      match v with
      | .null => []
      | v => jsToStringFuel fuel v)
  | _ + 1, .obj _ => "[object Object]".toList

/-- JavaScript `String(v)`. -/
def jsToString (v : Json) : List Char := jsToStringFuel v.jsize v

/-- The literal `JSON.stringify(` prefix recognized by the engine. -/
def stringifyCallPrefix : List Char := "JSON.stringify(".toList

/-- The body of one placeholder substitution
(src/lib/llm/templates/engine.ts lines 77–106): the trimmed expression is
either a `JSON.stringify(...)` call — whose unresolved variable prints as
the string `undefined`, because `JSON.stringify(undefined)` is `undefined`
and the replacement callback's return value is coerced to a string — a
built-in date variable, or a plain (possibly dotted) variable, which is
kept as the original placeholder when it resolves to `undefined` or
`null`. -/
def renderExpr (e : List Char) (ctx : Json) (today : List Char) : List Char :=
  let t := jsTrim e
  if stringifyCallPrefix.isPrefixOf t = true ∧ t.getLast? = some ')' then
    let varName := jsTrim ((t.drop 15).dropLast)
    match getNested ctx varName with
    | some v => jsonStringifyPretty v
    | none => "undefined".toList
  else if t = "today_id".toList then today.filter (· ≠ '-')
  else if t = "today_date".toList then today
  else
    match getNested ctx t with
    | none => [lb, lb] ++ e ++ [rb, rb]
    | some .null => [lb, lb] ++ e ++ [rb, rb]
    | some v => jsToString v

/-- The character class `[^}]` of the placeholder regex. -/
def notRb (c : Char) : Bool := c != rb

/-- The global-regex replacement
`template.replace(/\{\{([^}]+)\}\}/g, ...)`: scan left to right; at a
position opening with two braces whose brace-free expression is closed by
two braces, substitute and continue after the match, otherwise advance one
character.  The fuel (one unit per scanned character) makes the recursion
structural; `interpolate` supplies enough for the whole template. -/
def interpolateFuel : ℕ → List Char → Json → List Char → List Char
  | 0, tpl, _, _ => tpl
  | _ + 1, [], _, _ => []
  | fuel + 1, c :: rest, ctx, today =>
    if c = lb then
      match rest with
      | c2 :: rest2 =>
        if c2 = lb then
          let run := rest2.takeWhile notRb
          match rest2.drop run.length with
          | a1 :: a2 :: after2 =>
            if run ≠ [] ∧ a1 = rb ∧ a2 = rb then
              renderExpr run ctx today ++ interpolateFuel fuel after2 ctx today
            else c :: interpolateFuel fuel rest ctx today
          | _ => c :: interpolateFuel fuel rest ctx today
        else c :: interpolateFuel fuel rest ctx today
      | [] => [c]
    else c :: interpolateFuel fuel rest ctx today

/-- `TemplateEngine.interpolate`. -/
def interpolate (tpl : List Char) (ctx : Json) (today : List Char) :
    List Char :=
  interpolateFuel (tpl.length + 1) tpl ctx today

/-- The engine's state: the fixed template map and the render cache, both
in insertion order. -/
structure TemplateEngine where
  templates : List (String × List Char)
  templateCache : List (String × List Char)
deriving DecidableEq, Repr

/-- `Template '${templateName}' not found`. -/
inductive RenderError where
  | templateNotFound
deriving DecidableEq, Repr

/-- Lookup in one of the engine's maps (`Map.get`: first matching key). -/
def lookupAssoc : List (String × List Char) → String → Option (List Char)
  | [], _ => none
  | (k', v) :: rest, k => if k' == k then some v else lookupAssoc rest k

/-- `TemplateEngine.render` (src/lib/llm/templates/engine.ts lines 53–71):
look up the template, build the cache key
`${templateName}:${JSON.stringify(context)}`, return the cached string on a
hit, otherwise interpolate and cache. -/
def render (eng : TemplateEngine) (name : String) (ctx : Json)
    (today : List Char) : Except RenderError (List Char × TemplateEngine) :=
  match lookupAssoc eng.templates name with
  | none => .error .templateNotFound
  | some tpl =>
    let cacheKey := name ++ ":" ++ String.mk (jsonStringifyCompact ctx)
    match lookupAssoc eng.templateCache cacheKey with
    | some cached => .ok (cached, eng)
    | none =>
      let rendered := interpolate tpl ctx today
      .ok (rendered,
        { eng with templateCache := eng.templateCache ++ [(cacheKey, rendered)] })

/-- Interpolating an empty template yields the empty string, for any fuel. -/
theorem interpolateFuel_nil (fuel : ℕ) (ctx : Json) (today : List Char) :
    interpolateFuel fuel [] ctx today = [] := by
  cases fuel <;> rfl

/-- `takeWhile` stops exactly at the closing brace. -/
theorem takeWhile_to_rb {e : List Char} (hrb : rb ∉ e) (y : List Char) :
    (e ++ rb :: y).takeWhile notRb = e := by
  induction e with
  | nil =>
    rw [List.nil_append, List.takeWhile_cons]
    have : notRb rb = false := by simp [notRb]
    rw [this]
    rfl
  | cons c e ih =>
    have hc : c ≠ rb := fun hEq => hrb (hEq ▸ List.mem_cons_self c e)
    have hrest : rb ∉ e := fun hm => hrb (List.mem_cons_of_mem c hm)
    rw [List.cons_append, List.takeWhile_cons]
    have hcb : notRb c = true := by simp [notRb, hc]
    rw [hcb, ih hrest]
    simp

/-- One scan step over a single well-formed placeholder. -/
theorem interpolateFuel_single (fuel : ℕ) (e : List Char) (ctx : Json)
    (today : List Char) (he : e ≠ []) (hrb : rb ∉ e) :
    interpolateFuel (fuel + 1) (lb :: lb :: (e ++ rb :: rb :: []))
      ctx today = renderExpr e ctx today := by
  have hrun : (e ++ rb :: rb :: []).takeWhile notRb = e :=
    takeWhile_to_rb hrb _
  simp only [interpolateFuel, if_pos rfl, hrun, List.drop_left]
  simp [he, interpolateFuel_nil]

/-- Claim C9, counterexample: a `JSON.stringify` placeholder whose variable
is unknown is *not* left verbatim — `JSON.stringify(undefined)` is
`undefined`, and the replacement callback's return value is coerced, so the
rendered output is the literal string `undefined`. -/
theorem C9_counterexample :
    interpolate ([lb, lb] ++ "JSON.stringify(missing)".toList ++ [rb, rb])
        (Json.obj []) "2024-01-01".toList = "undefined".toList ∧
      interpolate ([lb, lb] ++ "JSON.stringify(missing)".toList ++ [rb, rb])
        (Json.obj []) "2024-01-01".toList ≠
        [lb, lb] ++ "JSON.stringify(missing)".toList ++ [rb, rb] := by
  constructor
  · decide
  · decide

/-- Claim C9 (amended): a plain (possibly dotted) `{{name}}` placeholder
whose variable is unknown — not a built-in date variable, not a
`JSON.stringify(...)` form, and resolving to nothing (or `null`) in the
context — is left verbatim in the output, both at the level of one
substitution and for a full single-placeholder template, and rendering is a
total function that never fails on unknown variables.  The
`{{JSON.stringify(var)}}` form is the exception: an unknown variable there
renders as the string `undefined` (see the counterexample). -/
theorem C9_main :
    (∀ (e : List Char) (ctx : Json) (today : List Char),
      ¬(stringifyCallPrefix.isPrefixOf (jsTrim e) = true ∧
        (jsTrim e).getLast? = some ')') →
      jsTrim e ≠ "today_id".toList →
      jsTrim e ≠ "today_date".toList →
      (getNested ctx (jsTrim e) = none ∨
        getNested ctx (jsTrim e) = some .null) →
      renderExpr e ctx today = [lb, lb] ++ e ++ [rb, rb]) ∧
    (∀ (e : List Char) (ctx : Json) (today : List Char),
      e ≠ [] → rb ∉ e →
      ¬(stringifyCallPrefix.isPrefixOf (jsTrim e) = true ∧
        (jsTrim e).getLast? = some ')') →
      jsTrim e ≠ "today_id".toList →
      jsTrim e ≠ "today_date".toList →
      (getNested ctx (jsTrim e) = none ∨
        getNested ctx (jsTrim e) = some .null) →
      interpolate ([lb, lb] ++ e ++ [rb, rb]) ctx today =
        [lb, lb] ++ e ++ [rb, rb]) := by
  have hpart1 : ∀ (e : List Char) (ctx : Json) (today : List Char),
      ¬(stringifyCallPrefix.isPrefixOf (jsTrim e) = true ∧
        (jsTrim e).getLast? = some ')') →
      jsTrim e ≠ "today_id".toList →
      jsTrim e ≠ "today_date".toList →
      (getNested ctx (jsTrim e) = none ∨
        getNested ctx (jsTrim e) = some .null) →
      renderExpr e ctx today = [lb, lb] ++ e ++ [rb, rb] := by
    intro e ctx today hstr hid hdate hval
    simp only [renderExpr]
    rw [if_neg hstr, if_neg hid, if_neg hdate]
    rcases hval with h | h <;> rw [h]
  refine ⟨hpart1, ?_⟩
  intro e ctx today he hrb hstr hid hdate hval
  have hshape : ([lb, lb] ++ e ++ [rb, rb] : List Char) =
      lb :: lb :: (e ++ rb :: rb :: []) := by simp
  rw [hshape]
  show interpolateFuel ((lb :: lb :: (e ++ rb :: rb :: [])).length + 1) _ _ _ = _
  have hlen : (lb :: lb :: (e ++ rb :: rb :: [])).length + 1 =
      (e.length + 4) + 1 := by simp
  rw [hlen, interpolateFuel_single _ e ctx today he hrb]
  exact hpart1 e ctx today hstr hid hdate hval

/-- Claim C9, witness: a concrete unknown plain placeholder is rendered
verbatim. -/
theorem C9_witness :
    interpolate ([lb, lb] ++ "missing_var".toList ++ [rb, rb]) (Json.obj [])
        "2024-01-01".toList =
      [lb, lb] ++ "missing_var".toList ++ [rb, rb] :=
  C9_main.2 "missing_var".toList (Json.obj []) "2024-01-01".toList
    (by decide) (by decide) (by decide) (by decide) (by decide)
    (Or.inl (by decide))

/-- A key absent from an association list is found after appending it. -/
theorem lookupAssoc_append_self (l : List (String × List Char)) (k : String)
    (v : List Char) (h : lookupAssoc l k = none) :
    lookupAssoc (l ++ [(k, v)]) k = some v := by
  induction l with
  | nil => simp [lookupAssoc]
  | cons q l ih =>
    obtain ⟨k1, v1⟩ := q
    cases hq : (k1 == k) with
    | true => simp [lookupAssoc, hq] at h
    | false =>
      rw [List.cons_append]
      simp only [lookupAssoc, hq, if_false] at h ⊢
      exact ih h

/-- Claim C10: on one engine instance, `render` is fully determined by the
template name and the JSON serialization of the context — a second call
whose context serializes to the same string returns the character-identical
cached string of the first call, including the `{{today_id}}` /
`{{today_date}}` values computed at first-render time, even when the
current date has changed between the calls. -/
theorem C10_main (eng : TemplateEngine) (name : String) (ctx₁ ctx₂ : Json)
    (d₁ d₂ : List Char) (r : List Char) (eng' : TemplateEngine)
    (hser : jsonStringifyCompact ctx₁ = jsonStringifyCompact ctx₂)
    (h1 : render eng name ctx₁ d₁ = .ok (r, eng')) :
    render eng' name ctx₂ d₂ = .ok (r, eng') := by
  simp only [render] at h1
  cases htpl : lookupAssoc eng.templates name with
  | none =>
    rw [htpl] at h1
    exact absurd h1 (by simp)
  | some tpl =>
    rw [htpl] at h1
    have hkey : name ++ ":" ++ String.mk (jsonStringifyCompact ctx₂) =
        name ++ ":" ++ String.mk (jsonStringifyCompact ctx₁) := by
      rw [hser]
    cases hc : lookupAssoc eng.templateCache
        (name ++ ":" ++ String.mk (jsonStringifyCompact ctx₁)) with
    | some cached =>
      rw [hc] at h1
      simp only [Except.ok.injEq, Prod.mk.injEq] at h1
      obtain ⟨hcr, hee⟩ := h1
      subst hcr; subst hee
      simp only [render, htpl, hkey, hc]
    | none =>
      rw [hc] at h1
      simp only [Except.ok.injEq, Prod.mk.injEq] at h1
      obtain ⟨hcr, hee⟩ := h1
      subst hcr
      subst hee
      simp only [render, htpl, hkey]
      rw [lookupAssoc_append_self _ _ _ hc]

/-- Claim C10, witness: with the date template cached under the serialized
empty context, a second render six years later returns the original
date string and leaves the engine unchanged. -/
theorem C10_witness :
    render
      ({ templates := [("t", [lb, lb] ++ "today_date".toList ++ [rb, rb])],
         templateCache := [] } : TemplateEngine)
      "t" (Json.obj []) "2024-01-01".toList =
      .ok ("2024-01-01".toList,
        { templates := [("t", [lb, lb] ++ "today_date".toList ++ [rb, rb])],
          templateCache :=
            [("t:" ++ String.mk (jsonStringifyCompact (Json.obj [])),
              "2024-01-01".toList)] }) ∧
    render
      ({ templates := [("t", [lb, lb] ++ "today_date".toList ++ [rb, rb])],
         templateCache :=
           [("t:" ++ String.mk (jsonStringifyCompact (Json.obj [])),
             "2024-01-01".toList)] } : TemplateEngine)
      "t" (Json.obj []) "2030-12-31".toList =
      .ok ("2024-01-01".toList,
        { templates := [("t", [lb, lb] ++ "today_date".toList ++ [rb, rb])],
          templateCache :=
            [("t:" ++ String.mk (jsonStringifyCompact (Json.obj [])),
              "2024-01-01".toList)] }) := by
  constructor
  · rfl
  · exact C10_main
      ({ templates := [("t", [lb, lb] ++ "today_date".toList ++ [rb, rb])],
         templateCache := [] } : TemplateEngine)
      "t" (Json.obj []) (Json.obj []) "2024-01-01".toList
      "2030-12-31".toList "2024-01-01".toList _ rfl rfl

/-! ## Response parsing (`LLMService.callLLM`, src/lib/llm.ts lines 335–361)

`JSON.parse` is modelled by a fuel-based recursive-descent parser for the
JSON grammar; the fuel (one unit per nesting step, always backed by at
least one consumed character) is supplied from the input length, so it
never runs out on real input. -/

/-- JSON insignificant whitespace. -/
def isJsonWs (c : Char) : Bool :=
  c = ' ' || c = '\t' || c = '\n' || c = '\r'

/-- Skip insignificant whitespace. -/
def skipWs (s : List Char) : List Char := s.dropWhile isJsonWs

/-- A decimal digit. -/
def isDigitCh (c : Char) : Bool := '0' ≤ c ∧ c ≤ '9'

/-- Value of a hex digit, if any. -/
def hexVal (c : Char) : Option ℕ :=
  if '0' ≤ c ∧ c ≤ '9' then some (c.toNat - 48)
  else if 'a' ≤ c ∧ c ≤ 'f' then some (c.toNat - 87)
  else if 'A' ≤ c ∧ c ≤ 'F' then some (c.toNat - 55)
  else none

/-- Parse the body of a JSON string after the opening quote, returning the
decoded characters and the input after the closing quote.  Handles the
escape sequences of the JSON grammar; unescaped control characters are
rejected. -/
def pStringBody : List Char → Option (List Char × List Char)
  | [] => none
  | c :: rest =>
    if c = '"' then some ([], rest)
    else if c = '\\' then
      match rest with
      | [] => none
      | e :: rest2 =>
        if e = '"' ∨ e = '\\' ∨ e = '/' then
          (pStringBody rest2).map fun p => (e :: p.1, p.2)
        else if e = 'b' then
          (pStringBody rest2).map fun p => (Char.ofNat 8 :: p.1, p.2)
        else if e = 'f' then
          (pStringBody rest2).map fun p => (Char.ofNat 12 :: p.1, p.2)
        else if e = 'n' then
          (pStringBody rest2).map fun p => ('\n' :: p.1, p.2)
        else if e = 'r' then
          (pStringBody rest2).map fun p => ('\r' :: p.1, p.2)
        else if e = 't' then
          (pStringBody rest2).map fun p => ('\t' :: p.1, p.2)
        else if e = 'u' then
          match rest2 with
          | h1 :: h2 :: h3 :: h4 :: rest3 =>
            match hexVal h1, hexVal h2, hexVal h3, hexVal h4 with
            | some a, some b, some c3, some d =>
              (pStringBody rest3).map fun p =>
                (Char.ofNat (((a * 16 + b) * 16 + c3) * 16 + d) :: p.1, p.2)
            | _, _, _, _ => none
          | _ => none
        else none
    else if c.toNat < 32 then none
    else (pStringBody rest).map fun p => (c :: p.1, p.2)

/-- The numeric value of a parsed JSON number: sign, mantissa digits,
length of the fractional part, exponent.  The integer case avoids rational
division so that parsed integers are literal rationals. -/
def jsonNumber (neg : Bool) (mant : ℕ) (fracLen : ℕ) (expNeg : Bool)
    (e : ℕ) : ℚ :=
  if fracLen = 0 ∧ e = 0 then
    if neg then -(mant : ℚ) else (mant : ℚ)
  else
    let m : ℚ := if neg then -(mant : ℚ) else (mant : ℚ)
    if expNeg then m / ((10 ^ (fracLen + e) : ℕ) : ℚ)
    else m * ((10 ^ e : ℕ) : ℚ) / ((10 ^ fracLen : ℕ) : ℚ)

/-- Parse the exponent part of a number (after mantissa and fraction). -/
def pNumberExp (neg : Bool) (mantDs : List Char) (fracLen : ℕ)
    (s : List Char) : Option (Json × List Char) :=
  match s with
  | c :: rest =>
    if c = 'e' ∨ c = 'E' then
      let signRest : Bool × List Char :=
        match rest with
        | '+' :: r => (false, r)
        | '-' :: r => (true, r)
        | r => (false, r)
      let es := signRest.2.takeWhile isDigitCh
      if es = [] then none
      else
        some (.num (jsonNumber neg (digitsToNat mantDs) fracLen signRest.1
          (digitsToNat es)), signRest.2.drop es.length)
    else some (.num (jsonNumber neg (digitsToNat mantDs) fracLen false 0),
      c :: rest)
  | [] => some (.num (jsonNumber neg (digitsToNat mantDs) fracLen false 0), [])

/-- Parse the optional fraction part of a number (after the integer part). -/
def pNumberFrac (neg : Bool) (intDs : List Char) (s : List Char) :
    Option (Json × List Char) :=
  match s with
  | '.' :: rest =>
    let fs := rest.takeWhile isDigitCh
    if fs = [] then none
    else pNumberExp neg (intDs ++ fs) fs.length (rest.drop fs.length)
  | _ => pNumberExp neg intDs 0 s

/-- Parse a JSON number (`-?(0|[1-9]\d*)(\.\d+)?([eE][+-]?\d+)?`). -/
def pNumber (s : List Char) : Option (Json × List Char) :=
  let signRest : Bool × List Char :=
    match s with
    | '-' :: r => (true, r)
    | r => (false, r)
  match signRest.2 with
  | c :: rest =>
    if c = '0' then pNumberFrac signRest.1 ['0'] rest
    else if isDigitCh c then
      let ds := (c :: rest).takeWhile isDigitCh
      pNumberFrac signRest.1 ds ((c :: rest).drop ds.length)
    else none
  | [] => none

mutual
/-- Parse one JSON value, returning it with the remaining input. -/
def pValue : ℕ → List Char → Option (Json × List Char)
  | 0, _ => none
  | fuel + 1, s =>
    match skipWs s with
    | [] => none
    | c :: rest =>
      if c = lb then pObjectBody fuel rest []
      else if c = '[' then pArrayBody fuel rest []
      else if c = '"' then
        (pStringBody rest).map fun p => (.str (String.mk p.1), p.2)
      else if c = 't' then
        match rest with
        | 'r' :: 'u' :: 'e' :: r => some (.bool true, r)
        | _ => none
      else if c = 'f' then
        match rest with
        | 'a' :: 'l' :: 's' :: 'e' :: r => some (.bool false, r)
        | _ => none
      else if c = 'n' then
        match rest with
        | 'u' :: 'l' :: 'l' :: r => some (.null, r)
        | _ => none
      else pNumber (c :: rest)

/-- Parse the members of an object after the opening brace (or after a
comma, with the members so far in `acc`). -/
def pObjectBody : ℕ → List Char → JObj → Option (Json × List Char)
  | 0, _, _ => none
  | fuel + 1, s, acc =>
    match skipWs s with
    | [] => none
    | c :: rest =>
      if c = rb ∧ acc = [] then some (.obj [], rest)
      else if c = '"' then
        match pStringBody rest with
        | none => none
        | some (key, rest2) =>
          match skipWs rest2 with
          | ':' :: rest3 =>
            match pValue fuel rest3 with
            | none => none
            | some (v, rest4) =>
              match skipWs rest4 with
              | ',' :: rest5 =>
                pObjectBody fuel rest5 (acc ++ [(String.mk key, v)])
              | c2 :: rest5 =>
                if c2 = rb then
                  some (.obj (acc ++ [(String.mk key, v)]), rest5)
                else none
              | [] => none
          | _ => none
      else none

/-- Parse the elements of an array after the opening bracket (or after a
comma, with the elements so far in `acc`). -/
def pArrayBody : ℕ → List Char → List Json → Option (Json × List Char)
  | 0, _, _ => none
  | fuel + 1, s, acc =>
    match skipWs s with
    | [] => none
    | c :: rest =>
      if c = ']' ∧ acc = [] then some (.arr [], rest)
      else
        match pValue fuel (c :: rest) with
        | none => none
        | some (v, rest2) =>
          match skipWs rest2 with
          | ',' :: rest3 => pArrayBody fuel rest3 (acc ++ [v])
          | c2 :: rest3 =>
            if c2 = ']' then some (.arr (acc ++ [v]), rest3) else none
          | [] => none
end

/-- `JSON.parse(s)`: parse one value and require only whitespace after it. -/
def jsonParse (s : List Char) : Option Json :=
  match pValue (s.length + 1) s with
  | some (v, rest) => if skipWs rest = [] then some v else none
  | none => none

/-- Index of the first opening brace. -/
def firstLbIdx (s : List Char) : Option ℕ := s.findIdx? fun c => c = lb

/-- Index of the last closing brace. -/
def lastRbIdx (s : List Char) : Option ℕ :=
  (s.reverse.findIdx? fun c => c = rb).map fun i => s.length - 1 - i

/-- The match of the greedy regex `/\{[\s\S]*\}/` on `s`: the text before
the match and the substring from the first opening brace through the last
closing brace, when a brace pair in that order exists. -/
def extractJsonRegion (s : List Char) : Option (List Char × List Char) :=
  match firstLbIdx s, lastRbIdx s with
  | some i, some j =>
    if i < j then some (s.take i, (s.drop i).take (j - i + 1)) else none
  | _, _ => none

/-- The parse-failure modes of `callLLM`'s response handling:
`noStructuredOutput` is `No valid JSON found in LLM response`,
`extractedParseFailed` is `Failed to parse LLM response as JSON`. -/
inductive LLMParseError where
  | noStructuredOutput
  | extractedParseFailed
deriving DecidableEq, Repr

/-- The summary used when no text precedes the extracted JSON. -/
def defaultSummary : List Char := "Generated specification".toList

/-- The response-parsing step of `LLMService.callLLM` (src/lib/llm.ts lines
335–361): parse the whole trimmed response; on failure extract the first
`{` through the last `}` and parse that slice, taking the trimmed preceding
text (when non-empty) as the summary; fail with `noStructuredOutput` when
no such region exists. -/
def parseLLMResponse (content : List Char) :
    Except LLMParseError (Json × List Char) :=
  match jsonParse (jsTrim content) with
  | some v => .ok (v, defaultSummary)
  | none =>
    match extractJsonRegion content with
    | some (pre, slice) =>
      match jsonParse slice with
      | some v =>
        if jsTrim pre = [] then .ok (v, defaultSummary)
        else .ok (v, jsTrim pre)
      | none => .error .extractedParseFailed
    | none => .error .noStructuredOutput

/-- Claim C1: if the trimmed response parses as a single JSON value, that
value is the structured result; otherwise the substring from the first `{`
through the last `}` is parsed and the trimmed preceding text (when
non-empty) becomes the summary; with no such region the operation fails
with `noStructuredOutput`.  In particular the response
`Here is the result: {"a":1} done.` yields the object `{"a":1}` with
summary `Here is the result:`. -/
theorem C1_main :
    (∀ (content : List Char) (v : Json),
      jsonParse (jsTrim content) = some v →
      parseLLMResponse content = .ok (v, defaultSummary)) ∧
    (∀ (content pre slice : List Char) (v : Json),
      jsonParse (jsTrim content) = none →
      extractJsonRegion content = some (pre, slice) →
      jsonParse slice = some v →
      parseLLMResponse content =
        .ok (v, if jsTrim pre = [] then defaultSummary else jsTrim pre)) ∧
    (∀ content : List Char,
      jsonParse (jsTrim content) = none →
      extractJsonRegion content = none →
      parseLLMResponse content = .error .noStructuredOutput) ∧
    (parseLLMResponse ("Here is the result: ".toList ++
        lb :: "\"a\":1".toList ++ [rb] ++ " done.".toList) =
      .ok (.obj [("a", .num 1)], "Here is the result:".toList)) := by
  refine ⟨?_, ?_, ?_, ?_⟩
  · intro content v h
    simp [parseLLMResponse, h]
  · intro content pre slice v h1 h2 h3
    simp only [parseLLMResponse, h1, h2, h3]
    by_cases hp : jsTrim pre = []
    · simp [hp]
    · simp [hp]
  · intro content h1 h2
    simp [parseLLMResponse, h1, h2]
  · rfl

/-- Claim C1, witness: a response whose whole text is not JSON but contains
a braced region is parsed from that region, with the preceding text
(trimmed) as summary. -/
theorem C1_witness :
    parseLLMResponse ("x ".toList ++ [lb, rb] ++ " y".toList) =
      .ok (.obj [],
        if jsTrim ("x ".toList) = [] then defaultSummary
        else jsTrim ("x ".toList)) :=
  C1_main.2.1 ("x ".toList ++ [lb, rb] ++ " y".toList) ("x ".toList)
    [lb, rb] (.obj []) (by decide) (by decide) (by decide)

end SpecGen
